import Mathlib

/-!
Shallow embedding of the logic-bearing pieces of the `dawichi/blog`
repository:

* the content schema validator (`src/content/config.ts`),
* the visibility filter and the tag-control list of the blog index page,
* the client-side tag filter script of the index page,
* the table-of-contents generator and the reading-progress scroll handler
  of `src/pages/[...slug].astro`.

JS strings are `String`, JS booleans are `Bool`, DOM node lists are
`List`, a JS value that may be `null`/missing is an `Option`, and a DOM
operation that may throw a `TypeError` (a property access on `null`)
returns an `Option` result, `none` meaning the script fails.
-/

/-- The result of applying `new Date(val)` in the `pubDate` transform of
the schema: the argument was either a string or an already-parsed date
(modelled by its epoch value). -/
inductive DateVal where
  | ofString (s : String)
  | ofDate (d : Int)
deriving DecidableEq, Repr

/-- A typed blog article record, as produced by the collection schema in
`src/content/config.ts`: title, description, pubDate, heroImage, tags,
visible. -/
structure Article where
  title : String
  description : String
  pubDate : DateVal
  heroImage : String
  tags : List String
  visible : Bool
deriving DecidableEq, Repr

/-- A collection entry: the slug derived from the file name plus the
validated frontmatter (`data`). -/
structure Post where
  slug : String
  data : Article
deriving DecidableEq, Repr

/-- A raw frontmatter value, before validation: the dynamic values the
YAML header can hold at the fields the schema looks at. -/
inductive FrontVal where
  | vstr (s : String)
  | vdate (d : Int)
  | vbool (b : Bool)
  | vnum (n : Int)
  | varr (l : List FrontVal)

/-- A raw frontmatter record: each schema field is present with some
dynamic value or missing (`none`). -/
structure RawRecord where
  title : Option FrontVal
  description : Option FrontVal
  pubDate : Option FrontVal
  heroImage : Option FrontVal
  tags : Option FrontVal
  visible : Option FrontVal

/-- `z.string()`: succeeds exactly on a present string value. -/
def parseString : Option FrontVal → Option String
  | some (FrontVal.vstr s) => some s
  | _ => none

/-- `z.boolean()`: succeeds exactly on a present boolean value. -/
def parseBool : Option FrontVal → Option Bool
  | some (FrontVal.vbool b) => some b
  | _ => none

/-- `z.string().or(z.date()).transform(val => new Date(val))`: a string
or a date is accepted and handed to the `Date` constructor. -/
def parsePubDate : Option FrontVal → Option DateVal
  | some (FrontVal.vstr s) => some (DateVal.ofString s)
  | some (FrontVal.vdate d) => some (DateVal.ofDate d)
  | _ => none

/-- Element-wise `z.string()` over the members of a sequence value:
succeeds exactly when every element is a string. -/
def parseStrings : List FrontVal → Option (List String)
  | [] => some []
  | FrontVal.vstr s :: rest =>
      match parseStrings rest with
      | some tail => some (s :: tail)
      | none => none
  | _ :: _ => none

/-- `z.array(z.string())`: a sequence value all of whose elements are
strings. -/
def parseStringList : Option FrontVal → Option (List String)
  | some (FrontVal.varr l) => parseStrings l
  | _ => none

/-- The blog collection schema of `src/content/config.ts`: validates the
six frontmatter fields and produces a typed `Article`, or fails. -/
def parseBlog (r : RawRecord) : Option Article :=
  match parseString r.title, parseString r.description,
        parsePubDate r.pubDate, parseString r.heroImage,
        parseStringList r.tags, parseBool r.visible with
  | some t, some de, some pd, some hi, some tg, some vi =>
      some ⟨t, de, pd, hi, tg, vi⟩
  | _, _, _, _, _, _ => none

/-- The production visibility filter of the index page:
`if (!is_development) posts = posts.filter(post => post.data.visible === true)`
where `is_development` is `import.meta.env.NODE_ENV === 'development'`. -/
def filterVisible (nodeEnv : String) (posts : List Post) : List Post :=
  if nodeEnv = "development" then posts
  else posts.filter (fun post => post.data.visible == true)

/-- The tag-deduplicating reduce of the index page: walk the posts, walk
each post's tags, push a tag onto the accumulator only when it is not
already there. -/
def collectTags (posts : List Post) : List String :=
  posts.foldl (fun acc post =>
    post.data.tags.foldl (fun acc tag =>
      if tag ∈ acc then acc else acc ++ [tag]) acc) []

/-- The rendered tag-control labels: the deduplicated union, sorted
(`.sort()` before mapping to buttons). -/
def renderedTags (posts : List Post) : List String :=
  (collectTags posts).mergeSort (fun a b => a ≤ b)

/-- A rendered post list item as the filter script sees it: the article
it was rendered from (its tag spans carry `data.tags` as inner text) and
whether the `opacity-20` class is currently on it. -/
structure PostView where
  art : Article
  dimmed : Bool
deriving DecidableEq, Repr

/-- A rendered tag-control button: its label (`innerText` and `innerHTML`
coincide on these text-only buttons) and whether `opacity-20` is on it. -/
structure TagView where
  label : String
  dimmed : Bool
deriving DecidableEq, Repr

/-- The client-side filter state: the post list items, the tag buttons,
and the `last_tag_clicked` variable (initially `null`). -/
structure FilterState where
  posts : List PostView
  tags : List TagView
  last : Option String
deriving DecidableEq, Repr

/-- `updatePosts(tag_clicked)`: for each post, remove `opacity-20` when
its tag spans include the clicked tag or the argument is `'all'`, add it
otherwise. -/
def updatePosts (tagClicked : String) (posts : List PostView) : List PostView :=
  posts.map (fun post =>
    if tagClicked ∈ post.art.tags ∨ tagClicked = "all" then
      { post with dimmed := false }
    else
      { post with dimmed := true })

/-- `updateTags(tag_clicked)`: for each tag button, remove `opacity-20`
when its label is the clicked tag or the argument is `'all'`, add it
otherwise. -/
def updateTags (tagClicked : String) (tags : List TagView) : List TagView :=
  tags.map (fun tag =>
    if tag.label = tagClicked ∨ tagClicked = "all" then
      { tag with dimmed := false }
    else
      { tag with dimmed := true })

/-- The click listener attached to a tag button with label `t`: on a
repeated click (`t === last_tag_clicked`) reset via the `'all'` sentinel
and clear `last_tag_clicked`; otherwise highlight by `t` and remember it. -/
def clickTag (s : FilterState) (t : String) : FilterState :=
  if some t = s.last then
    { posts := updatePosts "all" s.posts
      tags := updateTags "all" s.tags
      last := none }
  else
    { posts := updatePosts t s.posts
      tags := updateTags t s.tags
      last := some t }

/-- A sequence of tag clicks, applied in order. -/
def applyClicks (s : FilterState) (ts : List String) : FilterState :=
  ts.foldl clickTag s

/-- A post list item with full opacity. -/
def undimPost (post : PostView) : PostView :=
  { post with dimmed := false }

/-- A tag button with full opacity. -/
def undimTag (tag : TagView) : TagView :=
  { tag with dimmed := false }

/-- The fully-unselected display for a state's posts and tags: every item
at full opacity and `last_tag_clicked` cleared. -/
def resetOf (s : FilterState) : FilterState :=
  { posts := s.posts.map undimPost
    tags := s.tags.map undimTag
    last := none }

/-- A DOM element as the TOC script sees it: its uppercase `nodeName`,
its `id` and its `innerText`. -/
structure Element where
  name : String
  id : String
  text : String
deriving DecidableEq, Repr

/-- A generated TOC list item: the link target (`'#' + id`), the link
text, and the `marginLeft` style (set only for the nodeNames in the
`margins` table). -/
structure TocEntry where
  href : String
  text : String
  marginLeft : Option String
deriving DecidableEq, Repr

/-- The `margins` lookup table of the TOC generator: `H2` gets `0rem`,
`H3` gets `1rem`, anything else is `undefined`. -/
def marginOf (name : String) : Option String :=
  if name = "H2" then some "0rem"
  else if name = "H3" then some "1rem"
  else none

/-- Does the element match the `querySelectorAll('h2, h3')` selector? -/
def isSubheading (e : Element) : Bool :=
  e.name = "H2" ∨ e.name = "H3"

/-- The TOC link built from one subheading. -/
def entryOf (e : Element) : TocEntry :=
  { href := "#" ++ e.id, text := e.text, marginLeft := marginOf e.name }

/-- The TOC entries generated for an article body: one link per `h2`/`h3`
element, in document order. -/
def tocOf (body : List Element) : List TocEntry :=
  (body.filter isSubheading).map entryOf

/-- The page DOM as the inline scripts of `[...slug].astro` see it:
whether a `dw-blog-article` container exists and the elements inside it,
whether the `table-of-contents` list exists and its current children,
whether the `post-progress-bar` element exists and its width style (the
computed percentage, modelled over ℚ). -/
structure Dom where
  articlePresent : Bool
  articleElems : List Element
  tocPresent : Bool
  tocChildren : List TocEntry
  progressBarPresent : Bool
  progressWidth : Option ℚ
deriving DecidableEq, Repr

/-- `generateTableOfContents()`: no-op when no `dw-blog-article` element
exists; then read `childElementCount` off `table-of-contents` (a thrown
`TypeError`, i.e. `none`, when that element is `null`); no-op when the
container already has children; otherwise append one link per `h2`/`h3`
of the article. -/
def generateTableOfContents (d : Dom) : Option Dom :=
  if d.articlePresent = false then some d
  else if d.tocPresent = false then none
  else if d.tocChildren.length ≠ 0 then some d
  else some { d with tocChildren := d.tocChildren ++ tocOf d.articleElems }

/-- The `scroll` listener: set the progress-bar width to
`scrollY / (scrollHeight - innerHeight) * 100` percent; a thrown
`TypeError` (`none`) when `post-progress-bar` is `null`. -/
def scrollHandler (d : Dom) (scrollY scrollHeight innerHeight : ℚ) : Option Dom :=
  if d.progressBarPresent = false then none
  else some { d with progressWidth := some (scrollY / (scrollHeight - innerHeight) * 100) }

lemma updatePosts_all (ps : List PostView) :
    updatePosts "all" ps = ps.map undimPost := by
  simp [updatePosts, undimPost]

lemma updateTags_all (ts : List TagView) :
    updateTags "all" ts = ts.map undimTag := by
  simp [updateTags, undimTag]

lemma updatePosts_all_comp (x : String) (ps : List PostView) :
    updatePosts "all" (updatePosts x ps) = ps.map undimPost := by
  simp only [updatePosts, List.map_map]
  apply List.map_congr_left
  intro p _
  by_cases h : x ∈ p.art.tags ∨ x = "all" <;> simp [h, undimPost]

lemma updateTags_all_comp (x : String) (ts : List TagView) :
    updateTags "all" (updateTags x ts) = ts.map undimTag := by
  simp only [updateTags, List.map_map]
  apply List.map_congr_left
  intro c _
  by_cases h : c.label = x ∨ x = "all" <;> simp [h, undimTag]

lemma clickTag_eq_reset (s : FilterState) (t : String) (h : some t = s.last) :
    clickTag s t = resetOf s := by
  unfold clickTag
  rw [if_pos h]
  simp [resetOf, updatePosts_all, updateTags_all]

lemma clickTag_of_ne (s : FilterState) (t : String) (h : s.last ≠ some t) :
    clickTag s t = ⟨updatePosts t s.posts, updateTags t s.tags, some t⟩ := by
  unfold clickTag
  rw [if_neg (fun hh => h hh.symm)]

lemma clickTag_twice_reset (s : FilterState) (t : String) (h : s.last ≠ some t) :
    clickTag (clickTag s t) t = resetOf s := by
  rw [clickTag_of_ne s t h]
  unfold clickTag
  simp [resetOf, updatePosts_all_comp, updateTags_all_comp]

lemma updatePosts_map_art (x : String) (ps : List PostView) :
    (updatePosts x ps).map PostView.art = ps.map PostView.art := by
  simp only [updatePosts, List.map_map]
  apply List.map_congr_left
  intro p _
  by_cases h : x ∈ p.art.tags ∨ x = "all" <;> simp [h]

lemma updateTags_map_label (x : String) (ts : List TagView) :
    (updateTags x ts).map TagView.label = ts.map TagView.label := by
  simp only [updateTags, List.map_map]
  apply List.map_congr_left
  intro c _
  by_cases h : c.label = x ∨ x = "all" <;> simp [h]

lemma clickTag_map_art (s : FilterState) (t : String) :
    (clickTag s t).posts.map PostView.art = s.posts.map PostView.art := by
  unfold clickTag
  by_cases h : some t = s.last <;> simp [h, updatePosts_map_art]

lemma clickTag_map_label (s : FilterState) (t : String) :
    (clickTag s t).tags.map TagView.label = s.tags.map TagView.label := by
  unfold clickTag
  by_cases h : some t = s.last <;> simp [h, updateTags_map_label]

lemma applyClicks_map_art (ts : List String) (s : FilterState) :
    (applyClicks s ts).posts.map PostView.art = s.posts.map PostView.art := by
  induction ts generalizing s with
  | nil => rfl
  | cons t rest ih =>
      simp only [applyClicks, List.foldl_cons]
      rw [show (List.foldl clickTag (clickTag s t) rest) = applyClicks (clickTag s t) rest from rfl,
          ih (clickTag s t), clickTag_map_art]

lemma applyClicks_map_label (ts : List String) (s : FilterState) :
    (applyClicks s ts).tags.map TagView.label = s.tags.map TagView.label := by
  induction ts generalizing s with
  | nil => rfl
  | cons t rest ih =>
      simp only [applyClicks, List.foldl_cons]
      rw [show (List.foldl clickTag (clickTag s t) rest) = applyClicks (clickTag s t) rest from rfl,
          ih (clickTag s t), clickTag_map_label]

lemma updatePosts_sel_after_map (u : String) (hu : u ≠ "all")
    (f : PostView → PostView) (hf : ∀ p, (f p).art = p.art) (ps : List PostView) :
    updatePosts u (ps.map f)
      = ps.map (fun p => ⟨p.art, decide (u ∉ p.art.tags)⟩) := by
  simp only [updatePosts, List.map_map]
  apply List.map_congr_left
  intro p _
  by_cases h : u ∈ p.art.tags <;> simp [hf, h, hu]

lemma updateTags_sel_after_map (u : String) (hu : u ≠ "all")
    (f : TagView → TagView) (hf : ∀ c, (f c).label = c.label) (ts : List TagView) :
    updateTags u (ts.map f)
      = ts.map (fun c => ⟨c.label, decide (c.label ≠ u)⟩) := by
  simp only [updateTags, List.map_map]
  apply List.map_congr_left
  intro c _
  by_cases h : c.label = u <;> simp [hf, h, hu]

lemma updatePosts_sel_comp (u x : String) (hu : u ≠ "all") (ps : List PostView) :
    updatePosts u (updatePosts x ps)
      = ps.map (fun p => ⟨p.art, decide (u ∉ p.art.tags)⟩) := by
  simp only [updatePosts, List.map_map]
  apply List.map_congr_left
  intro p _
  by_cases hx : x ∈ p.art.tags ∨ x = "all" <;>
    by_cases h : u ∈ p.art.tags <;> simp [hx, h, hu]

lemma updateTags_sel_comp (u x : String) (hu : u ≠ "all") (ts : List TagView) :
    updateTags u (updateTags x ts)
      = ts.map (fun c => ⟨c.label, decide (c.label ≠ u)⟩) := by
  simp only [updateTags, List.map_map]
  apply List.map_congr_left
  intro c _
  by_cases hx : c.label = x ∨ x = "all"
  · simp only [Function.comp, if_pos hx]
    by_cases h : c.label = u <;> simp [h, hu]
  · simp only [Function.comp, if_neg hx]
    by_cases h : c.label = u <;> simp [h, hu]

/-- C2 (counterexample): starting from a display state where
`last_tag_clicked` is already the clicked tag, clicking it twice does NOT
end in the fully-unselected state — the first click resets, the second
re-selects the tag, so `last_tag_clicked` ends up `some "code"` and the
other items end up dimmed. -/
theorem c2_counterexample :
    (applyClicks
        ⟨[⟨⟨"A", "", DateVal.ofDate 0, "", ["code"], true⟩, false⟩,
          ⟨⟨"B", "", DateVal.ofDate 0, "", ["js"], true⟩, false⟩],
         [⟨"code", false⟩, ⟨"js", false⟩], some "code"⟩
        ["code", "code"]).last = some "code"
    ∧ applyClicks
        ⟨[⟨⟨"A", "", DateVal.ofDate 0, "", ["code"], true⟩, false⟩,
          ⟨⟨"B", "", DateVal.ofDate 0, "", ["js"], true⟩, false⟩],
         [⟨"code", false⟩, ⟨"js", false⟩], some "code"⟩
        ["code", "code"]
      ≠ resetOf
        ⟨[⟨⟨"A", "", DateVal.ofDate 0, "", ["code"], true⟩, false⟩,
          ⟨⟨"B", "", DateVal.ofDate 0, "", ["js"], true⟩, false⟩],
         [⟨"code", false⟩, ⟨"js", false⟩], some "code"⟩ := by
  constructor
  · decide
  · decide

/-- C2 (amended): provided the clicked tag is not already the remembered
`last_tag_clicked`, clicking a tag twice in succession returns every
article and every tag control to the unselected full-opacity state and
clears `last_tag_clicked`. -/
theorem c2_double_click_reset (s : FilterState) (t : String)
    (h : s.last ≠ some t) :
    applyClicks s [t, t] = resetOf s :=
  clickTag_twice_reset s t h

/-- C2 witness: the amended statement at a concrete dimmed state with
`last_tag_clicked = none`. -/
theorem c2_double_click_reset_witness :
    applyClicks
        ⟨[⟨⟨"A", "", DateVal.ofDate 0, "", ["code"], true⟩, true⟩],
         [⟨"code", true⟩], none⟩ ["code", "code"]
      = resetOf
        ⟨[⟨⟨"A", "", DateVal.ofDate 0, "", ["code"], true⟩, true⟩],
         [⟨"code", true⟩], none⟩ :=
  c2_double_click_reset _ "code" (by decide)

/-- C3 (counterexample): with a tag control labelled literally `all`,
clicking `code` and then `all` does not dim the article that lacks the
`all` tag (the sentinel un-dims everything), so "exactly the articles
containing U highlighted, every other article dimmed" fails at U = `all`.
The other tag control also stays undimmed. -/
theorem c3_counterexample :
    (applyClicks
        ⟨[⟨⟨"A", "", DateVal.ofDate 0, "", ["code"], true⟩, false⟩,
          ⟨⟨"B", "", DateVal.ofDate 0, "", ["js"], true⟩, false⟩],
         [⟨"all", false⟩, ⟨"code", false⟩], none⟩
        ["code", "all"]).posts
      = [⟨⟨"A", "", DateVal.ofDate 0, "", ["code"], true⟩, false⟩,
         ⟨⟨"B", "", DateVal.ofDate 0, "", ["js"], true⟩, false⟩]
    ∧ "all" ∉ (⟨"B", "", DateVal.ofDate 0, "", ["js"], true⟩ : Article).tags
    ∧ (applyClicks
        ⟨[⟨⟨"A", "", DateVal.ofDate 0, "", ["code"], true⟩, false⟩,
          ⟨⟨"B", "", DateVal.ofDate 0, "", ["js"], true⟩, false⟩],
         [⟨"all", false⟩, ⟨"code", false⟩], none⟩
        ["code", "all"]).tags
      = [⟨"all", false⟩, ⟨"code", false⟩] := by
  refine ⟨by decide, by decide, by decide⟩

/-- C3 (amended): for distinct tags T and U with U not the literal
sentinel `all`, clicking T and then U leaves exactly the articles whose
tag set contains U at full opacity and every other article dimmed, the U
control at full opacity and every other control dimmed, and
`last_tag_clicked = U`, from any starting display state. -/
theorem c3_click_then_other (s : FilterState) (tFirst u : String)
    (hne : tFirst ≠ u) (hu : u ≠ "all") :
    applyClicks s [tFirst, u] =
      { posts := s.posts.map (fun p => ⟨p.art, decide (u ∉ p.art.tags)⟩)
        tags := s.tags.map (fun c => ⟨c.label, decide (c.label ≠ u)⟩)
        last := some u } := by
  show clickTag (clickTag s tFirst) u = _
  by_cases h : some tFirst = s.last
  · rw [clickTag_eq_reset s tFirst h]
    have hl : (resetOf s).last ≠ some u := by simp [resetOf]
    rw [clickTag_of_ne _ u hl]
    simp only [resetOf]
    rw [updatePosts_sel_after_map u hu undimPost (fun p => rfl),
        updateTags_sel_after_map u hu undimTag (fun c => rfl)]
  · rw [clickTag_of_ne s tFirst (fun hh => h hh.symm)]
    have hl : (⟨updatePosts tFirst s.posts, updateTags tFirst s.tags,
                some tFirst⟩ : FilterState).last ≠ some u := by
      simpa using hne
    rw [clickTag_of_ne _ u hl]
    simp only []
    rw [updatePosts_sel_comp u tFirst hu, updateTags_sel_comp u tFirst hu]

/-- C3 witness: the amended statement at a concrete state, clicking
`code` then `js`. -/
theorem c3_click_then_other_witness :
    applyClicks
        ⟨[⟨⟨"A", "", DateVal.ofDate 0, "", ["code"], true⟩, false⟩,
          ⟨⟨"B", "", DateVal.ofDate 0, "", ["js"], true⟩, false⟩],
         [⟨"code", false⟩, ⟨"js", false⟩], none⟩ ["code", "js"] =
      { posts := ([⟨⟨"A", "", DateVal.ofDate 0, "", ["code"], true⟩, false⟩,
                   ⟨⟨"B", "", DateVal.ofDate 0, "", ["js"], true⟩, false⟩] :
                     List PostView).map
                    (fun p => ⟨p.art, decide ("js" ∉ p.art.tags)⟩)
        tags := [(⟨"code", false⟩ : TagView), ⟨"js", false⟩].map
                    (fun c => ⟨c.label, decide (c.label ≠ "js")⟩)
        last := some "js" } :=
  c3_click_then_other _ "code" "js" (by decide) (by decide)

/-- C9: any sequence of tag clicks changes only presentational state —
the underlying article records and the control labels are untouched — and
from any state and any tag the display can be returned to the
fully-unselected state by one or two clicks on that tag. -/
theorem c9_filter_frame (s : FilterState) (ts : List String) (t : String) :
    (applyClicks s ts).posts.map PostView.art = s.posts.map PostView.art ∧
    (applyClicks s ts).tags.map TagView.label = s.tags.map TagView.label ∧
    (clickTag s t = resetOf s ∨ clickTag (clickTag s t) t = resetOf s) := by
  refine ⟨applyClicks_map_art ts s, applyClicks_map_label ts s, ?_⟩
  by_cases h : some t = s.last
  · exact Or.inl (clickTag_eq_reset s t h)
  · exact Or.inr (clickTag_twice_reset s t (fun hh => h hh.symm))

/-- C10: the literal string `all` is the reset sentinel — `updatePosts`
and `updateTags` un-dim every item on input `all` regardless of tag
membership, so clicking a control labelled `all` un-dims everything and
merely toggles `last_tag_clicked`; concretely, a post without the `all`
tag ends at full opacity instead of being filtered out. -/
theorem c10_all_sentinel (s : FilterState) :
    updatePosts "all" s.posts = s.posts.map undimPost ∧
    updateTags "all" s.tags = s.tags.map undimTag ∧
    clickTag s "all" =
      ⟨s.posts.map undimPost, s.tags.map undimTag,
       if some "all" = s.last then none else some "all"⟩ ∧
    (clickTag ⟨[⟨⟨"B", "", DateVal.ofDate 0, "", ["js"], true⟩, true⟩],
               [⟨"all", false⟩], none⟩ "all").posts
      = [⟨⟨"B", "", DateVal.ofDate 0, "", ["js"], true⟩, false⟩] := by
  refine ⟨updatePosts_all s.posts, updateTags_all s.tags, ?_, by decide⟩
  unfold clickTag
  by_cases h : some "all" = s.last <;>
    simp [h, updatePosts_all, updateTags_all]

/-- C1 (counterexample): on a page whose article container exists but
whose `table-of-contents` list is absent, `generateTableOfContents` does
NOT silently no-op — reading `childElementCount` off the `null` element
throws, and likewise the scroll handler throws when `post-progress-bar`
is absent. -/
theorem c1_counterexample :
    generateTableOfContents ⟨true, [], false, [], true, none⟩ = none
    ∧ scrollHandler ⟨true, [], true, [], false, none⟩ 0 2 1 = none := by
  exact ⟨rfl, rfl⟩

/-- C1 (amended): only the article container's absence is guarded — when
it is absent the TOC generator silently does nothing; when the article
container is present but the TOC list is absent the generator fails
(throws), and when the progress-bar element is absent the scroll handler
fails (throws). -/
theorem c1_dom_guards (d : Dom) (y sh iw : ℚ) :
    (d.articlePresent = false → generateTableOfContents d = some d) ∧
    (d.articlePresent = true → d.tocPresent = false →
        generateTableOfContents d = none) ∧
    (d.progressBarPresent = false → scrollHandler d y sh iw = none) := by
  refine ⟨fun ha => ?_, fun ha ht => ?_, fun hp => ?_⟩
  · unfold generateTableOfContents
    rw [if_pos ha]
  · unfold generateTableOfContents
    rw [if_neg (by simp [ha]), if_pos ht]
  · unfold scrollHandler
    rw [if_pos hp]

/-- C1 witness: the amended guards at concrete pages — a non-article page
is left unchanged, and a page with no progress bar makes the scroll
handler throw. -/
theorem c1_dom_guards_witness :
    generateTableOfContents ⟨false, [], true, [], true, none⟩
        = some ⟨false, [], true, [], true, none⟩
    ∧ scrollHandler ⟨true, [], true, [], false, none⟩ 5 20 10 = none :=
  ⟨(c1_dom_guards ⟨false, [], true, [], true, none⟩ 0 0 0).1 rfl,
   (c1_dom_guards ⟨true, [], true, [], false, none⟩ 5 20 10).2.2 rfl⟩

/-- C7: the TOC generator emits exactly one entry per `h2`/`h3` heading,
in document order, each linking to `'#' + id` with the level's indent; a
page run populates the container with exactly that list, and a body with
two level-2 headings and one level-3 heading yields three entries in
document order. -/
theorem c7_toc_entries (body : List Element) (i : ℕ) :
    (tocOf body).length = (body.filter isSubheading).length ∧
    (tocOf body)[i]? = ((body.filter isSubheading)[i]?).map entryOf ∧
    (∀ d : Dom, d.articlePresent = true → d.tocPresent = true →
        d.tocChildren = [] →
        generateTableOfContents d
          = some { d with tocChildren := tocOf d.articleElems }) ∧
    tocOf [⟨"H2", "intro", "Intro"⟩, ⟨"P", "", "text"⟩,
           ⟨"H2", "setup", "Setup"⟩, ⟨"H3", "detail", "Detail"⟩]
      = [⟨"#intro", "Intro", some "0rem"⟩, ⟨"#setup", "Setup", some "0rem"⟩,
         ⟨"#detail", "Detail", some "1rem"⟩] := by
  refine ⟨by simp [tocOf], by simp [tocOf], fun d ha ht hc => ?_, by decide⟩
  unfold generateTableOfContents
  rw [if_neg (by simp [ha]), if_neg (by simp [ht]), if_neg (by simp [hc]), hc]
  simp

/-- C7 witness: the generator run on a concrete page with one `h3`
heading populates the container with its single entry. -/
theorem c7_toc_entries_witness :
    generateTableOfContents ⟨true, [⟨"H3", "x", "X"⟩], true, [], true, none⟩
      = some { (⟨true, [⟨"H3", "x", "X"⟩], true, [], true, none⟩ : Dom) with
                 tocChildren := tocOf [⟨"H3", "x", "X"⟩] } :=
  (c7_toc_entries [] 0).2.2.1 ⟨true, [⟨"H3", "x", "X"⟩], true, [], true, none⟩
    rfl rfl rfl

/-- C8: the TOC is populated at most once per page view — when the
container already has children (the guard checks the child count) the
generator leaves the page unchanged, and any successful run is a fixed
point of a further run. -/
theorem c8_toc_at_most_once (d : Dom) :
    (d.tocPresent = true → d.tocChildren.length ≠ 0 →
        generateTableOfContents d = some d) ∧
    (∀ e, generateTableOfContents d = some e →
        generateTableOfContents e = some e) := by
  constructor
  · intro ht hc
    unfold generateTableOfContents
    by_cases ha : d.articlePresent = false
    · rw [if_pos ha]
    · rw [if_neg ha, if_neg (by simp [ht]), if_pos hc]
  · intro e he
    unfold generateTableOfContents at he ⊢
    by_cases ha : d.articlePresent = false
    · rw [if_pos ha] at he
      obtain rfl := Option.some.inj he
      rw [if_pos ha]
    · rw [if_neg ha] at he
      by_cases ht : d.tocPresent = false
      · rw [if_pos ht] at he
        exact absurd he (by simp)
      · rw [if_neg ht] at he
        by_cases hc : d.tocChildren.length ≠ 0
        · rw [if_pos hc] at he
          obtain rfl := Option.some.inj he
          rw [if_neg ha, if_neg ht, if_pos hc]
        · rw [if_neg hc] at he
          obtain rfl := Option.some.inj he
          simp only [not_ne_iff, List.length_eq_zero] at hc
          by_cases hg : (tocOf d.articleElems).length ≠ 0
          · rw [if_neg ha, if_neg ht, if_pos (by simp [hc, hg])]
          · simp only [not_ne_iff, List.length_eq_zero] at hg
            rw [if_neg ha, if_neg ht, if_neg (by simp [hc, hg])]
            simp [hc, hg]

/-- C8 witness: a page whose container already holds an entry is left
unchanged, and re-running the generator after a populating run changes
nothing. -/
theorem c8_toc_at_most_once_witness :
    generateTableOfContents
        ⟨true, [⟨"H2", "a", "A"⟩], true, [⟨"#a", "A", some "0rem"⟩], true, none⟩
      = some ⟨true, [⟨"H2", "a", "A"⟩], true, [⟨"#a", "A", some "0rem"⟩], true, none⟩
    ∧ generateTableOfContents
        ⟨true, [⟨"H2", "a", "A"⟩], true, [⟨"#a", "A", some "0rem"⟩], true, none⟩
      = some ⟨true, [⟨"H2", "a", "A"⟩], true, [⟨"#a", "A", some "0rem"⟩], true, none⟩ :=
  ⟨(c8_toc_at_most_once
      ⟨true, [⟨"H2", "a", "A"⟩], true, [⟨"#a", "A", some "0rem"⟩], true, none⟩).1
      rfl (by decide),
   (c8_toc_at_most_once ⟨true, [⟨"H2", "a", "A"⟩], true, [], true, none⟩).2
      ⟨true, [⟨"H2", "a", "A"⟩], true, [⟨"#a", "A", some "0rem"⟩], true, none⟩
      (by decide)⟩

/-- C4: an article with `visible = false` is excluded from the index list
unless `NODE_ENV === 'development'`; with the development flag set the
visibility filter excludes nothing. -/
theorem c4_visibility_filter (nodeEnv : String) (posts : List Post) (p : Post) :
    (nodeEnv ≠ "development" → p.data.visible = false →
        p ∉ filterVisible nodeEnv posts) ∧
    filterVisible "development" posts = posts := by
  constructor
  · intro henv hvis hmem
    unfold filterVisible at hmem
    rw [if_neg henv] at hmem
    have hp := (List.mem_filter.mp hmem).2
    rw [hvis] at hp
    simp at hp
  · unfold filterVisible
    rw [if_pos rfl]

/-- C4 witness: a hidden post is dropped in production and kept in
development. -/
theorem c4_visibility_filter_witness :
    (⟨"s", ⟨"T", "D", DateVal.ofDate 0, "h", [], false⟩⟩ : Post)
        ∉ filterVisible "production"
            [⟨"s", ⟨"T", "D", DateVal.ofDate 0, "h", [], false⟩⟩]
    ∧ filterVisible "development"
          [(⟨"s", ⟨"T", "D", DateVal.ofDate 0, "h", [], false⟩⟩ : Post)]
        = [⟨"s", ⟨"T", "D", DateVal.ofDate 0, "h", [], false⟩⟩] :=
  ⟨(c4_visibility_filter "production"
      [⟨"s", ⟨"T", "D", DateVal.ofDate 0, "h", [], false⟩⟩]
      ⟨"s", ⟨"T", "D", DateVal.ofDate 0, "h", [], false⟩⟩).1 (by decide) rfl,
   (c4_visibility_filter "production"
      [⟨"s", ⟨"T", "D", DateVal.ofDate 0, "h", [], false⟩⟩]
      ⟨"s", ⟨"T", "D", DateVal.ofDate 0, "h", [], false⟩⟩).2⟩

lemma parseString_isSome (v : Option FrontVal) :
    (parseString v).isSome ↔ ∃ s, v = some (FrontVal.vstr s) := by
  cases v with
  | none => simp [parseString]
  | some w => cases w <;> simp [parseString]

lemma parseBool_isSome (v : Option FrontVal) :
    (parseBool v).isSome ↔ ∃ b, v = some (FrontVal.vbool b) := by
  cases v with
  | none => simp [parseBool]
  | some w => cases w <;> simp [parseBool]

lemma parsePubDate_isSome (v : Option FrontVal) :
    (parsePubDate v).isSome ↔
      (∃ s, v = some (FrontVal.vstr s)) ∨ (∃ d, v = some (FrontVal.vdate d)) := by
  cases v with
  | none => simp [parsePubDate]
  | some w => cases w <;> simp [parsePubDate]

lemma parseStrings_eq_some (l : List FrontVal) (ss : List String) :
    parseStrings l = some ss ↔ l = ss.map FrontVal.vstr := by
  induction l generalizing ss with
  | nil =>
      cases ss <;> simp [parseStrings]
  | cons v rest ih =>
      cases v with
      | vstr s =>
          simp only [parseStrings]
          cases hr : parseStrings rest with
          | none =>
              simp only []
              constructor
              · intro h; exact absurd h (by simp)
              · intro h
                cases ss with
                | nil => simp at h
                | cons s0 tail =>
                    simp only [List.map_cons, List.cons.injEq] at h
                    rw [(ih tail).mpr h.2] at hr
                    exact absurd hr (by simp)
          | some tail =>
              simp only []
              cases ss with
              | nil => simp [(ih tail).mp hr]
              | cons s0 tail0 =>
                  have hrest := (ih tail).mp hr
                  constructor
                  · intro h
                    simp only [Option.some.injEq, List.cons.injEq] at h
                    simp [h.1, ← h.2, hrest]
                  · intro h
                    simp only [List.map_cons, List.cons.injEq] at h
                    have htl : tail = tail0 := by
                      have h2 := (ih tail0).mpr h.2
                      rw [hr] at h2
                      exact (Option.some.inj h2)
                    have hs := h.1
                    injection hs with hs
                    simp [hs, htl]
      | vdate d =>
          simp only [parseStrings]
          cases ss <;> simp
      | vbool b =>
          simp only [parseStrings]
          cases ss <;> simp
      | vnum n =>
          simp only [parseStrings]
          cases ss <;> simp
      | varr l2 =>
          simp only [parseStrings]
          cases ss <;> simp

lemma parseStringList_isSome (v : Option FrontVal) :
    (parseStringList v).isSome ↔
      ∃ ss : List String, v = some (FrontVal.varr (ss.map FrontVal.vstr)) := by
  cases v with
  | none => simp [parseStringList]
  | some w =>
      cases w with
      | varr l =>
          simp only [parseStringList, Option.isSome_iff_exists,
            Option.some.injEq, FrontVal.varr.injEq]
          constructor
          · rintro ⟨ss, hss⟩
            exact ⟨ss, (parseStrings_eq_some l ss).mp hss⟩
          · rintro ⟨ss, hss⟩
            exact ⟨ss, (parseStrings_eq_some l ss).mpr hss⟩
      | vstr s => simp [parseStringList]
      | vdate d => simp [parseStringList]
      | vbool b => simp [parseStringList]
      | vnum n => simp [parseStringList]

lemma parseBlog_isSome (r : RawRecord) :
    (parseBlog r).isSome ↔
      (parseString r.title).isSome ∧ (parseString r.description).isSome ∧
      (parsePubDate r.pubDate).isSome ∧ (parseString r.heroImage).isSome ∧
      (parseStringList r.tags).isSome ∧ (parseBool r.visible).isSome := by
  unfold parseBlog
  cases parseString r.title <;> cases parseString r.description <;>
    cases parsePubDate r.pubDate <;> cases parseString r.heroImage <;>
    cases parseStringList r.tags <;> cases parseBool r.visible <;> simp

lemma parseBlog_eq_some (r : RawRecord) (a : Article) :
    parseBlog r = some a ↔
      parseString r.title = some a.title ∧
      parseString r.description = some a.description ∧
      parsePubDate r.pubDate = some a.pubDate ∧
      parseString r.heroImage = some a.heroImage ∧
      parseStringList r.tags = some a.tags ∧
      parseBool r.visible = some a.visible := by
  unfold parseBlog
  cases parseString r.title <;> cases parseString r.description <;>
    cases parsePubDate r.pubDate <;> cases parseString r.heroImage <;>
    cases parseStringList r.tags <;> cases parseBool r.visible <;>
    simp <;> (constructor
              · rintro rfl; simp
              · rintro ⟨h1, h2, h3, h4, h5, h6⟩
                cases a
                simp_all)

/-- C5: the schema accepts a raw frontmatter record iff `title`,
`description` and `heroImage` are strings, `pubDate` is a date or a
string (the `Date` conversion is then applied), `tags` is a sequence of
strings and `visible` is a boolean; in particular a record missing
`title` fails validation. Validation runs at build time, where a failure
is fatal. -/
theorem c5_schema_validator (r : RawRecord) :
    ((parseBlog r).isSome ↔
      ((∃ s, r.title = some (FrontVal.vstr s)) ∧
       (∃ s, r.description = some (FrontVal.vstr s)) ∧
       ((∃ s, r.pubDate = some (FrontVal.vstr s)) ∨
        (∃ d, r.pubDate = some (FrontVal.vdate d))) ∧
       (∃ s, r.heroImage = some (FrontVal.vstr s)) ∧
       (∃ ss : List String, r.tags = some (FrontVal.varr (ss.map FrontVal.vstr))) ∧
       (∃ b, r.visible = some (FrontVal.vbool b)))) ∧
    (∀ a, parseBlog r = some a →
      (∀ s, r.pubDate = some (FrontVal.vstr s) → a.pubDate = DateVal.ofString s) ∧
      (∀ d, r.pubDate = some (FrontVal.vdate d) → a.pubDate = DateVal.ofDate d)) ∧
    parseBlog { r with title := none } = none := by
  refine ⟨?_, ?_, ?_⟩
  · rw [parseBlog_isSome]
    simp only [parseString_isSome, parsePubDate_isSome, parseStringList_isSome,
      parseBool_isSome]
  · intro a ha
    have h := (parseBlog_eq_some r a).mp ha
    refine ⟨fun s hs => ?_, fun dd hd => ?_⟩
    · have hpd := h.2.2.1
      rw [hs] at hpd
      exact (Option.some.inj hpd).symm
    · have hpd := h.2.2.1
      rw [hd] at hpd
      exact (Option.some.inj hpd).symm
  · unfold parseBlog
    simp [parseString]

/-- C5 witness: a fully well-typed record is accepted with the date
conversion applied, and the same record without `title` is rejected. -/
theorem c5_schema_validator_witness :
    (parseBlog ⟨some (FrontVal.vstr "T"), some (FrontVal.vstr "D"),
        some (FrontVal.vstr "2023-05-01"), some (FrontVal.vstr "/img.png"),
        some (FrontVal.varr [FrontVal.vstr "code"]),
        some (FrontVal.vbool true)⟩).isSome
    ∧ (⟨"T", "D", DateVal.ofString "2023-05-01", "/img.png", ["code"], true⟩
        : Article).pubDate = DateVal.ofString "2023-05-01"
    ∧ parseBlog ⟨none, some (FrontVal.vstr "D"),
        some (FrontVal.vstr "2023-05-01"), some (FrontVal.vstr "/img.png"),
        some (FrontVal.varr [FrontVal.vstr "code"]),
        some (FrontVal.vbool true)⟩ = none :=
  ⟨(c5_schema_validator ⟨some (FrontVal.vstr "T"), some (FrontVal.vstr "D"),
        some (FrontVal.vstr "2023-05-01"), some (FrontVal.vstr "/img.png"),
        some (FrontVal.varr [FrontVal.vstr "code"]),
        some (FrontVal.vbool true)⟩).1.mpr
      ⟨⟨"T", rfl⟩, ⟨"D", rfl⟩, Or.inl ⟨"2023-05-01", rfl⟩, ⟨"/img.png", rfl⟩,
       ⟨["code"], rfl⟩, ⟨true, rfl⟩⟩,
   ((c5_schema_validator ⟨some (FrontVal.vstr "T"), some (FrontVal.vstr "D"),
        some (FrontVal.vstr "2023-05-01"), some (FrontVal.vstr "/img.png"),
        some (FrontVal.varr [FrontVal.vstr "code"]),
        some (FrontVal.vbool true)⟩).2.1
      ⟨"T", "D", DateVal.ofString "2023-05-01", "/img.png", ["code"], true⟩
      rfl).1 "2023-05-01" rfl,
   (c5_schema_validator ⟨some (FrontVal.vstr "T"), some (FrontVal.vstr "D"),
        some (FrontVal.vstr "2023-05-01"), some (FrontVal.vstr "/img.png"),
        some (FrontVal.varr [FrontVal.vstr "code"]),
        some (FrontVal.vbool true)⟩).2.2⟩

lemma mem_dedupFoldInner (l : List String) (acc : List String) (x : String) :
    x ∈ l.foldl (fun acc tag => if tag ∈ acc then acc else acc ++ [tag]) acc ↔
      x ∈ acc ∨ x ∈ l := by
  induction l generalizing acc with
  | nil => simp
  | cons t rest ih =>
      rw [List.foldl_cons, ih]
      by_cases h : t ∈ acc
      · rw [if_pos h]
        simp only [List.mem_cons]
        constructor
        · rintro (hx | hx)
          · exact Or.inl hx
          · exact Or.inr (Or.inr hx)
        · rintro (hx | hx | hx)
          · exact Or.inl hx
          · exact Or.inl (hx ▸ h)
          · exact Or.inr hx
      · rw [if_neg h]
        simp only [List.mem_append, List.mem_singleton, List.mem_cons]
        tauto

lemma nodup_dedupFoldInner (l : List String) (acc : List String)
    (h : acc.Nodup) :
    (l.foldl (fun acc tag => if tag ∈ acc then acc else acc ++ [tag]) acc).Nodup := by
  induction l generalizing acc with
  | nil => exact h
  | cons t rest ih =>
      rw [List.foldl_cons]
      by_cases ht : t ∈ acc
      · rw [if_pos ht]; exact ih acc h
      · rw [if_neg ht]
        refine ih _ (List.nodup_append.mpr ⟨h, List.nodup_singleton t, ?_⟩)
        intro a ha hb
        rw [List.mem_singleton] at hb
        exact ht (hb ▸ ha)

lemma mem_collectTagsAux (ps : List Post) (acc : List String) (x : String) :
    x ∈ ps.foldl (fun acc post =>
        post.data.tags.foldl (fun acc tag =>
          if tag ∈ acc then acc else acc ++ [tag]) acc) acc ↔
      x ∈ acc ∨ ∃ p ∈ ps, x ∈ p.data.tags := by
  induction ps generalizing acc with
  | nil => simp
  | cons p rest ih =>
      rw [List.foldl_cons, ih, mem_dedupFoldInner]
      simp only [List.mem_cons]
      constructor
      · rintro ((hx | hx) | ⟨q, hq, hxq⟩)
        · exact Or.inl hx
        · exact Or.inr ⟨p, Or.inl rfl, hx⟩
        · exact Or.inr ⟨q, Or.inr hq, hxq⟩
      · rintro (hx | ⟨q, hq | hq, hxq⟩)
        · exact Or.inl (Or.inl hx)
        · exact Or.inl (Or.inr (hq ▸ hxq))
        · exact Or.inr ⟨q, hq, hxq⟩

lemma nodup_collectTagsAux (ps : List Post) (acc : List String)
    (h : acc.Nodup) :
    (ps.foldl (fun acc post =>
        post.data.tags.foldl (fun acc tag =>
          if tag ∈ acc then acc else acc ++ [tag]) acc) acc).Nodup := by
  induction ps generalizing acc with
  | nil => exact h
  | cons p rest ih =>
      rw [List.foldl_cons]
      exact ih _ (nodup_dedupFoldInner _ _ h)

lemma mem_collectTags (ps : List Post) (x : String) :
    x ∈ collectTags ps ↔ ∃ p ∈ ps, x ∈ p.data.tags := by
  unfold collectTags
  rw [mem_collectTagsAux]
  simp

lemma nodup_collectTags (ps : List Post) : (collectTags ps).Nodup :=
  nodup_collectTagsAux ps [] List.nodup_nil

/-- C6: a tag label appears among the rendered tag controls iff some
article in the list carries it, and the rendered control labels contain
no duplicates. -/
theorem c6_tag_controls (posts : List Post) (t : String) :
    (t ∈ renderedTags posts ↔ ∃ p ∈ posts, t ∈ p.data.tags) ∧
    (renderedTags posts).Nodup := by
  have hperm : (renderedTags posts).Perm (collectTags posts) :=
    List.mergeSort_perm (collectTags posts) _
  exact ⟨by rw [hperm.mem_iff, mem_collectTags],
         hperm.symm.nodup (nodup_collectTags posts)⟩
